import Mathlib

/-!
Verification development for the BTC 15-minute Polymarket arbitrage bot.

The definitions below are a shallow embedding of the bot code:
  - `compute_buy_fill` / `fillStep` embed `SimpleArbitrageBot._compute_buy_fill`
    (src/simple_arb_bot.py, the VWAP / worst-price ladder walk);
  - `check_arbitrage` embeds `SimpleArbitrageBot.check_arbitrage`;
  - the risk definitions embed `risk_manager.py` (`RiskLimits`,
    `DailyRiskState`, `_rollover_if_needed`, `can_trade`,
    `record_trade_result`, `adjust_actual_pnl`, `get_daily_stats`);
  - `wait_for_terminal_order` embeds the polling loop of `trading.py`,
    with the sequence of poll outcomes passed in explicitly (`none` marks a
    poll whose HTTP request raised and was caught; the list length is the
    number of poll iterations that fit inside the timeout window);
  - `execute_arbitrage` embeds `SimpleArbitrageBot.execute_arbitrage`, with
    the external effects (wallet balance, order ids from order placement,
    terminal order states from polling, per-order cancellation outcomes,
    current UTC date) supplied by a `World` record and the performed side
    effects reported as a `BotAction` trace;
  - `run_once` embeds `SimpleArbitrageBot.run_once` (and the textually
    identical `run_once_async`);
  - `backoff_after_failure` / `backoff_after_subscribe` embed the reconnect
    backoff updates of `MarketWssClient.run` in `wss_market.py`.

Python floats are embedded as rationals (`ℚ`); dates are the UTC date
strings the code compares for equality; the human-readable block reason
strings of `can_trade` are abstracted to the `TradeBlockReason` tag saying
which check produced them.
-/

/-- One price level of an order-book ask/bid ladder: price `px`, size `sz`
(the `{"px": ..., "sz": ...}` objects read by `_compute_buy_fill`). -/
structure Level where
  px : ℚ
  sz : ℚ
deriving DecidableEq

/-- Loop state of `_compute_buy_fill`: accumulated `filled` size, accumulated
`cost`, and the price of the last level touched (`worst`, `None` before the
first iteration). -/
structure FillLoopState where
  filled : ℚ
  cost : ℚ
  worst : Option ℚ
deriving DecidableEq

/-- The `for lvl in asks` loop of `_compute_buy_fill`: at each level take
`min(size - filled, sz)`, add it to `filled` and its cost to `cost`, record
the level price as `worst`, and break as soon as `filled >= size`. -/
def fillStep (size : ℚ) : List Level → FillLoopState → FillLoopState
  | [], st => st
  | lvl :: rest, st =>
    let take := min (size - st.filled) lvl.sz
    let filled := st.filled + take
    let cost := st.cost + take * lvl.px
    if size ≤ filled then ⟨filled, cost, some lvl.px⟩
    else fillStep size rest ⟨filled, cost, some lvl.px⟩

/-- Result of `_compute_buy_fill`: the `{"vwap": ..., "worst": ...}` dict. -/
structure FillEst where
  vwap : ℚ
  worst : Option ℚ
deriving DecidableEq

/-- `SimpleArbitrageBot._compute_buy_fill(asks, size)`: run the ladder walk
from a zeroed loop state; if the ladder was exhausted with `filled < size`
return `None`, else return the VWAP `cost / size` and the worst price. -/
def compute_buy_fill (asks : List Level) (size : ℚ) : Option FillEst :=
  let st := fillStep size asks ⟨0, 0, none⟩
  if st.filled < size then none
  else some ⟨st.cost / size, st.worst⟩

/-- Total size the ladder walk of `_compute_buy_fill` accumulates for a
remaining target `s`, written by structural recursion on the ladder (proved
equal to the `filled` component of `fillStep` in `fillStep_filled_cost`). -/
def fillFilledAux : List Level → ℚ → ℚ
  | [], _ => 0
  | lvl :: rest, s => if s ≤ lvl.sz then s else lvl.sz + fillFilledAux rest (s - lvl.sz)

/-- Total cost the ladder walk of `_compute_buy_fill` accumulates for a
remaining target `s` (proved equal to the `cost` component of `fillStep` in
`fillStep_filled_cost`). -/
def fillCostAux : List Level → ℚ → ℚ
  | [], _ => 0
  | lvl :: rest, s =>
    if s ≤ lvl.sz then s * lvl.px
    else lvl.sz * lvl.px + fillCostAux rest (s - lvl.sz)

/-- The opportunity dict built by `check_arbitrage`. -/
structure Opportunity where
  price_up : ℚ
  price_down : ℚ
  vwap_up : ℚ
  vwap_down : ℚ
  raw_cost : ℚ
  total_cost : ℚ
  order_size : ℚ
  expected_profit : ℚ
  total_investment : ℚ
  profit_pct : ℚ
deriving DecidableEq

/-- `SimpleArbitrageBot.check_arbitrage` on already-fetched books, with the
`order_size` and `target_pair_cost` settings passed explicitly.  Both legs
are estimated with `compute_buy_fill`; a missing estimate on either side
means no opportunity.  The tradeable cost signal is the sum of the two worst
prices (`raw_cost`), inflated by the fixed buffer `0.004`; a buffered cost
above `target_pair_cost` means no opportunity, otherwise the opportunity is
emitted with `expected_profit = 2*size - adj_cost*size`.  (When a successful
fill estimate carries no worst price — possible only for a non-positive
order size — the Python code would raise on `None + None`; that unreachable
branch is embedded as `none`.) -/
def check_arbitrage (order_size target_pair_cost : ℚ)
    (asks_up asks_down : List Level) : Option Opportunity :=
  match compute_buy_fill asks_up order_size, compute_buy_fill asks_down order_size with
  | some fill_up, some fill_down =>
    match fill_up.worst, fill_down.worst with
    | some price_up, some price_down =>
      let raw_cost := price_up + price_down
      let buffer : ℚ := 0.004
      let adj_cost := raw_cost * (1 + buffer)
      if target_pair_cost < adj_cost then none
      else
        let expected_payout := order_size * 2
        let investment := adj_cost * order_size
        some ⟨price_up, price_down, fill_up.vwap, fill_down.vwap, raw_cost,
              adj_cost, order_size, expected_payout - investment, investment,
              (1 - adj_cost) * 100⟩
    | _, _ => none
  | _, _ => none

/-- `RiskLimits` of risk_manager.py (`None` = limit unset). -/
structure RiskLimits where
  max_daily_loss : Option ℚ
  max_trades_per_day : Option ℕ
  max_position_size : Option ℚ
  min_balance_required : ℚ
  max_balance_utilization : ℚ
deriving DecidableEq

/-- `DailyRiskState` of risk_manager.py; `date` is the UTC date string. -/
structure DailyRiskState where
  date : String
  trades_count : ℕ
  net_pnl : ℚ
  invested : ℚ
deriving DecidableEq

/-- A fresh zeroed `DailyRiskState(date=today)`. -/
def freshDailyRiskState (today : String) : DailyRiskState :=
  ⟨today, 0, 0, 0⟩

/-- `RiskManager._rollover_if_needed`, with the current UTC date string as an
explicit argument: replace the state wholesale by a fresh zeroed record when
its stored date differs from today. -/
def rollover_if_needed (today : String) (s : DailyRiskState) : DailyRiskState :=
  if s.date ≠ today then freshDailyRiskState today else s

/-- Which check of `can_trade` produced the block (the code returns a
formatted reason string; only its identity matters here). -/
inductive TradeBlockReason
  | balanceTooLow
  | utilizationExceeded
  | dailyTradeCap
  | tradeTooLarge
  | dailyLossLimit
deriving DecidableEq

/-- Check (3) of `can_trade`: daily trade cap hit (skipped when unset). -/
def hitsDailyCap (lim : RiskLimits) (s : DailyRiskState) : Bool :=
  match lim.max_trades_per_day with
  | none => false
  | some cap => decide (cap ≤ s.trades_count)

/-- Check (4) of `can_trade`: per-trade position cap (skipped when unset). -/
def hitsMaxPosition (lim : RiskLimits) (trade_size : ℚ) : Bool :=
  match lim.max_position_size with
  | none => false
  | some cap => decide (cap < trade_size)

/-- Check (5) of `can_trade`: daily loss stop (skipped when unset). -/
def hitsDailyLoss (lim : RiskLimits) (s : DailyRiskState) : Bool :=
  match lim.max_daily_loss with
  | none => false
  | some m => decide (s.net_pnl < -|m|)

/-- `RiskManager.can_trade(trade_size, current_balance)`: rollover first,
then the five checks in order, first failure winning; returns the verdict
together with the (possibly rolled-over) stored state. -/
def can_trade (lim : RiskLimits) (today : String) (trade_size current_balance : ℚ)
    (s0 : DailyRiskState) : (Bool × Option TradeBlockReason) × DailyRiskState :=
  let s := rollover_if_needed today s0
  let verdict : Bool × Option TradeBlockReason :=
    if current_balance < lim.min_balance_required then
      (false, some .balanceTooLow)
    else if current_balance * lim.max_balance_utilization < trade_size then
      (false, some .utilizationExceeded)
    else if hitsDailyCap lim s then
      (false, some .dailyTradeCap)
    else if hitsMaxPosition lim trade_size then
      (false, some .tradeTooLarge)
    else if hitsDailyLoss lim s then
      (false, some .dailyLossLimit)
    else (true, none)
  (verdict, s)

/-- `RiskManager.record_trade_result(profit)`: rollover, then increment the
trade count and add the profit to the running PnL. -/
def record_trade_result (today : String) (profit : ℚ)
    (s0 : DailyRiskState) : DailyRiskState :=
  let s := rollover_if_needed today s0
  { s with trades_count := s.trades_count + 1, net_pnl := s.net_pnl + profit }

/-- `RiskManager.adjust_actual_pnl(realized_profit)`: rollover, then add the
realized profit to the running PnL. -/
def adjust_actual_pnl (today : String) (realized_profit : ℚ)
    (s0 : DailyRiskState) : DailyRiskState :=
  let s := rollover_if_needed today s0
  { s with net_pnl := s.net_pnl + realized_profit }

/-- `RiskManager.get_daily_stats()`: rollover, then report date / trades /
net PnL together with the (possibly rolled-over) stored state. -/
def get_daily_stats (today : String)
    (s0 : DailyRiskState) : (String × ℕ × ℚ) × DailyRiskState :=
  let s := rollover_if_needed today s0
  ((s.date, s.trades_count, s.net_pnl), s)

/-- One order-status response (`filled_size`, `status`) as read by the
polling loop in trading.py. -/
structure OrderRes where
  filled_size : ℚ
  status : String
deriving DecidableEq

/-- Python `str.lower()` as used on order statuses (character-wise ASCII
lowercasing). -/
def toLowerStr (s : String) : String := ⟨s.data.map Char.toLower⟩

/-- The terminal non-fill statuses of `wait_for_terminal_order`. -/
def terminalStatuses : List String := ["canceled", "rejected", "expired"]

/-- `trading.wait_for_terminal_order`, with the sequence of poll outcomes
explicit: each `none` is a poll whose request raised (caught and logged,
`last_seen` untouched); each `some res` is a successful poll, which first
updates `last_seen`, then returns `res` if `filled_size` reaches the
requested size or the lowercased status is terminal.  Exhausting the list is
the timeout: the code then returns `last_seen or
{"status": "timeout", "filled_size": 0.0}`. -/
def wait_for_terminal_order (requested_size : ℚ) :
    List (Option OrderRes) → Option OrderRes → OrderRes
  | [], last_seen => last_seen.getD ⟨0, "timeout"⟩
  | poll :: rest, last_seen =>
    match poll with
    | none => wait_for_terminal_order requested_size rest last_seen
    | some res =>
      if requested_size ≤ res.filled_size then res
      else if toLowerStr res.status ∈ terminalStatuses then res
      else wait_for_terminal_order requested_size rest (some res)

/-- Side effects performed by `execute_arbitrage`, in order. -/
inductive BotAction
  | sleep (seconds : ℚ)
  | canTradeCall (trade_size current_balance : ℚ)
  | placeOrdersCall
  | cancelAttempt (order_id : String) (succeeded : Bool)
  | recordTradeCall (profit : ℚ)
deriving DecidableEq

/-- `trading.cancel_orders`: posts a cancel for every id; a failing post is
caught and logged, so every id is attempted whatever `cancel_ok` says and
nothing escalates. -/
def cancel_orders (cancel_ok : String → Bool) (order_ids : List String) :
    List BotAction :=
  order_ids.map (fun oid => BotAction.cancelAttempt oid (cancel_ok oid))

/-- The external world observed by one `execute_arbitrage` call: the current
UTC date, the wallet balance returned when no balance is cached, the order
ids extracted from the two placement responses (`""` when extraction fails,
as `extract_order_id` returns), the terminal records the two
`wait_for_terminal_order` calls produce, and the per-order cancellation
outcome. -/
structure World where
  today : String
  wallet_balance : ℚ
  up_order_id : String
  dn_order_id : String
  up_state : OrderRes
  dn_state : OrderRes
  cancel_ok : String → Bool

/-- The bot settings fields `execute_arbitrage` and `run_once` read. -/
structure Settings where
  order_size : ℚ
  target_pair_cost : ℚ
  cooldown_seconds : ℚ
  dry_run : Bool
deriving DecidableEq

/-- The mutable bot fields touched by `execute_arbitrage` / `run_once`,
including the risk manager it owns (`risk_limits`, `risk_state`). -/
structure BotState where
  fail_count : ℕ
  last_execution_ts : ℚ
  trades_executed : ℕ
  positions : List Opportunity
  total_invested : ℚ
  cached_balance : Option ℚ
  sim_balance : ℚ
  risk_limits : RiskLimits
  risk_state : DailyRiskState
deriving DecidableEq

/-- `SimpleArbitrageBot.execute_arbitrage(opp)` with `now = time.time()` and
the external effects given by `w`.  Mirrors the code path for path: the
fail-count cooling (3 failures → sleep 60 s and reset), the cooldown-seconds
early return, the dry-run branch, and the real branch (cached-or-fetched
balance, 1.1 overshoot check, risk gate, order placement, id extraction,
polling both legs, the under-fill unwind, and the success bookkeeping). -/
def execute_arbitrage (st : Settings) (w : World) (now : ℚ) (opp : Opportunity)
    (s0 : BotState) : BotState × List BotAction :=
  let cooled : BotState × List BotAction :=
    if 3 ≤ s0.fail_count then ({ s0 with fail_count := 0 }, [BotAction.sleep 60])
    else (s0, [])
  let s1 := cooled.1
  let acts0 := cooled.2
  let cd := st.cooldown_seconds
  if cd ≠ 0 ∧ now - s1.last_execution_ts < cd then (s1, acts0)
  else
    let s2 := { s1 with last_execution_ts := now }
    if st.dry_run then
      if s2.sim_balance < opp.total_investment then
        ({ s2 with fail_count := s2.fail_count + 1 }, acts0)
      else
        ({ s2 with sim_balance := s2.sim_balance - opp.total_investment,
                   positions := s2.positions ++ [opp],
                   trades_executed := s2.trades_executed + 1,
                   total_invested := s2.total_invested + opp.total_investment },
         acts0)
    else
      let bal := s2.cached_balance.getD w.wallet_balance
      let need := opp.total_investment
      if bal < need * 1.1 then
        ({ s2 with fail_count := s2.fail_count + 1 }, acts0)
      else
        let ct := can_trade s2.risk_limits w.today need bal s2.risk_state
        let s3 := { s2 with risk_state := ct.2 }
        let acts1 := acts0 ++ [BotAction.canTradeCall need bal]
        if ct.1.1 = false then
          ({ s3 with fail_count := s3.fail_count + 1 }, acts1)
        else
          let acts2 := acts1 ++ [BotAction.placeOrdersCall]
          if w.up_order_id = "" ∨ w.dn_order_id = "" then
            ({ s3 with fail_count := s3.fail_count + 1 }, acts2)
          else
            let req := opp.order_size
            let up_ok := req ≤ w.up_state.filled_size
            let dn_ok := req ≤ w.dn_state.filled_size
            if ¬(up_ok ∧ dn_ok) then
              ({ s3 with fail_count := s3.fail_count + 1 },
               acts2 ++ cancel_orders w.cancel_ok [w.up_order_id, w.dn_order_id])
            else
              let risk2 := record_trade_result w.today opp.expected_profit s3.risk_state
              ({ s3 with fail_count := 0,
                         trades_executed := s3.trades_executed + 1,
                         total_invested := s3.total_invested + opp.total_investment,
                         positions := s3.positions ++ [opp],
                         cached_balance := none,
                         risk_state := risk2 },
               acts2 ++ [BotAction.recordTradeCall opp.expected_profit])

/-- `SimpleArbitrageBot.run_once` (and the identical `run_once_async`) on
already-fetched books: detect, execute on an opportunity and return `true`,
otherwise increment `fail_count` and return `false`. -/
def run_once (st : Settings) (w : World) (now : ℚ) (up_book down_book : List Level)
    (s : BotState) : (BotState × List BotAction) × Bool :=
  match check_arbitrage st.order_size st.target_pair_cost up_book down_book with
  | some opp => (execute_arbitrage st w now opp s, true)
  | none => (({ s with fail_count := s.fail_count + 1 }, []), false)

/-- `MarketWssClient._min_reconnect` (1.0 s). -/
def min_reconnect : ℚ := 1

/-- `MarketWssClient._max_reconnect` (10.0 s). -/
def max_reconnect : ℚ := 10

/-- The backoff update after a failed connection cycle in
`MarketWssClient.run`: `backoff = min(backoff * 1.5 + random.uniform(0, 1),
self._max_reconnect)`. -/
def backoff_after_failure (backoff jitter : ℚ) : ℚ :=
  min (backoff * 1.5 + jitter) max_reconnect

/-- The backoff reset right after a successful subscribe in
`MarketWssClient.run`: `backoff = self._min_reconnect`. -/
def backoff_after_subscribe : ℚ := min_reconnect

/-! ## Helper lemmas about the ladder walk -/

theorem fillStep_nil (size : ℚ) (st : FillLoopState) : fillStep size [] st = st := rfl

theorem fillStep_cons (size : ℚ) (lvl : Level) (rest : List Level) (st : FillLoopState) :
    fillStep size (lvl :: rest) st =
      if size ≤ st.filled + min (size - st.filled) lvl.sz then
        ⟨st.filled + min (size - st.filled) lvl.sz,
         st.cost + min (size - st.filled) lvl.sz * lvl.px, some lvl.px⟩
      else
        fillStep size rest
          ⟨st.filled + min (size - st.filled) lvl.sz,
           st.cost + min (size - st.filled) lvl.sz * lvl.px, some lvl.px⟩ := rfl

/-- The accumulated size never exceeds the initial accumulated size plus the
total depth of the ladder (each take is at most the level size). -/
theorem fillStep_filled_le_depth (size : ℚ) (asks : List Level) (st : FillLoopState)
    (hsz : ∀ lvl ∈ asks, 0 ≤ lvl.sz) :
    (fillStep size asks st).filled ≤ st.filled + (asks.map Level.sz).sum := by
  induction asks generalizing st with
  | nil => simp [fillStep_nil]
  | cons lvl rest ih =>
    rw [fillStep_cons]
    have htake : min (size - st.filled) lvl.sz ≤ lvl.sz := min_le_right _ _
    have hrest : (0 : ℚ) ≤ (rest.map Level.sz).sum := by
      apply List.sum_nonneg
      intro x hx
      obtain ⟨l, hl, rfl⟩ := List.mem_map.mp hx
      exact hsz l (List.mem_cons_of_mem _ hl)
    split_ifs with hstop
    · show st.filled + min (size - st.filled) lvl.sz ≤ _
      simp only [List.map_cons, List.sum_cons]
      linarith
    · have := ih ⟨st.filled + min (size - st.filled) lvl.sz,
        st.cost + min (size - st.filled) lvl.sz * lvl.px, some lvl.px⟩
        (fun l hl => hsz l (List.mem_cons_of_mem _ hl))
      simp only [List.map_cons, List.sum_cons]
      simp only [FillLoopState.mk.injEq] at this ⊢
      calc (fillStep size rest _).filled
          ≤ st.filled + min (size - st.filled) lvl.sz + (rest.map Level.sz).sum := this
        _ ≤ st.filled + (lvl.sz + (rest.map Level.sz).sum) := by linarith

/-- The loop of `_compute_buy_fill`, started below the target, accumulates
exactly `fillFilledAux` size at exactly `fillCostAux` cost. -/
theorem fillStep_filled_cost (asks : List Level) : ∀ (s : ℚ) (st : FillLoopState),
    st.filled < s →
    (fillStep s asks st).filled = st.filled + fillFilledAux asks (s - st.filled) ∧
    (fillStep s asks st).cost = st.cost + fillCostAux asks (s - st.filled) := by
  induction asks with
  | nil => intro s st _; simp [fillStep_nil, fillFilledAux, fillCostAux]
  | cons lvl rest ih =>
    intro s st h
    rw [fillStep_cons]
    by_cases hz : s - st.filled ≤ lvl.sz
    · have hmin : min (s - st.filled) lvl.sz = s - st.filled := min_eq_left hz
      have hcond : s ≤ st.filled + min (s - st.filled) lvl.sz := by rw [hmin]; linarith
      rw [if_pos hcond, hmin]
      have ha : fillFilledAux (lvl :: rest) (s - st.filled) = s - st.filled := by
        simp only [fillFilledAux]; exact if_pos hz
      have hb : fillCostAux (lvl :: rest) (s - st.filled) = (s - st.filled) * lvl.px := by
        simp only [fillCostAux]; exact if_pos hz
      exact ⟨by rw [ha], by rw [hb]⟩
    · push_neg at hz
      have hmin : min (s - st.filled) lvl.sz = lvl.sz := min_eq_right (le_of_lt hz)
      have hcond : ¬ (s ≤ st.filled + min (s - st.filled) lvl.sz) := by rw [hmin]; linarith
      rw [if_neg hcond, hmin]
      have hlt : (⟨st.filled + lvl.sz, st.cost + lvl.sz * lvl.px,
          some lvl.px⟩ : FillLoopState).filled < s := by
        show st.filled + lvl.sz < s
        linarith
      obtain ⟨h1, h2⟩ := ih s _ hlt
      rw [h1, h2]
      have hns : ¬ (s - st.filled ≤ lvl.sz) := by linarith
      refine ⟨?_, ?_⟩ <;>
        simp only [fillFilledAux, fillCostAux, if_neg hns, sub_add_eq_sub_sub] <;>
        ring_nf

/-- The walk never accumulates more than the target. -/
theorem fillFilledAux_le (asks : List Level) : ∀ s : ℚ, 0 ≤ s → fillFilledAux asks s ≤ s := by
  induction asks with
  | nil => intro s hs; simpa [fillFilledAux] using hs
  | cons lvl rest ih =>
    intro s hs
    simp only [fillFilledAux]
    split_ifs with hz
    · exact le_refl s
    · push_neg at hz
      have := ih (s - lvl.sz) (by linarith)
      linarith

/-- `_compute_buy_fill` written through the structural functions. -/
theorem compute_buy_fill_eq (asks : List Level) (s : ℚ) (h : 0 < s) :
    compute_buy_fill asks s =
      if fillFilledAux asks s < s then none
      else some ⟨fillCostAux asks s / s, (fillStep s asks ⟨0, 0, none⟩).worst⟩ := by
  obtain ⟨h1, h2⟩ := fillStep_filled_cost asks s ⟨0, 0, none⟩ (by simpa using h)
  simp only [compute_buy_fill, h1, h2]
  norm_num

/-- C2 depth conjunct, in walk terms: on success the walk fills the whole
target. -/
theorem fillFilledAux_success (asks : List Level) (s : ℚ) (h : 0 < s)
    (e : FillEst) (hsucc : compute_buy_fill asks s = some e) :
    fillFilledAux asks s = s := by
  rw [compute_buy_fill_eq asks s h] at hsucc
  by_cases hlt : fillFilledAux asks s < s
  · rw [if_pos hlt] at hsucc; cases hsucc
  · exact le_antisymm (fillFilledAux_le asks s (le_of_lt h)) (not_lt.mp hlt)

/-! ## C2 — fill estimator -/

/-- C2: the fill estimator walks the ask ladder in the order given,
accumulating size and price×size until the target is reached; for ladder
[(0.40,5),(0.42,10)] and size 8 it returns VWAP 0.40750 and worst price
0.42; for size 20 against total depth 15, and in general whenever the total
ladder depth is below the target size, it returns `none` — never an
estimate for only part of the size. -/
theorem C2_compute_buy_fill_depth
    (asks : List Level) (size : ℚ)
    (hsz : ∀ lvl ∈ asks, 0 ≤ lvl.sz)
    (hdepth : (asks.map Level.sz).sum < size) :
    compute_buy_fill asks size = none ∧
    compute_buy_fill [⟨0.40, 5⟩, ⟨0.42, 10⟩] 8 = some ⟨0.4075, some 0.42⟩ ∧
    compute_buy_fill [⟨0.40, 5⟩, ⟨0.42, 10⟩] 20 = none := by
  refine ⟨?_, ?_, ?_⟩
  · have h := fillStep_filled_le_depth size asks ⟨0, 0, none⟩ hsz
    have hlt : (fillStep size asks ⟨0, 0, none⟩).filled < size := by
      have h0 : (⟨0, 0, none⟩ : FillLoopState).filled = 0 := rfl
      rw [h0] at h
      linarith
    simp only [compute_buy_fill]
    rw [if_pos hlt]
  · norm_num [compute_buy_fill, fillStep]
  · norm_num [compute_buy_fill, fillStep]

theorem C2_compute_buy_fill_depth_witness :
    compute_buy_fill [⟨0.40, 5⟩, ⟨0.42, 10⟩] 20 = none :=
  (C2_compute_buy_fill_depth [⟨0.40, 5⟩, ⟨0.42, 10⟩] 20
    (by intro lvl h; fin_cases h <;> norm_num) (by norm_num)).1

/-! ## C1 — arbitrage gate -/

/-- C1: `check_arbitrage` gates on the sum of the two worst prices (not the
VWAPs), buffers it by the fixed factor 1.004, rejects whenever the buffered
cost exceeds the configured maximum pair cost, and otherwise emits an
opportunity with expected profit 2×size − buffered_cost×size.  Concretely:
worst prices 0.46/0.50 with max pair cost 1.00 give raw cost 0.96, buffered
cost 0.96384 and expected profit 1.03616 at size 1; the same inputs with max
pair cost 0.95 are rejected; and a book whose buffered VWAP sum (0.9036)
passes but whose buffered worst sum (1.2048) fails is rejected, showing the
gate reads worst prices. -/
theorem C1_check_arbitrage_gate
    (order_size target : ℚ) (asks_up asks_down : List Level)
    (fu fd : FillEst) (pu pd : ℚ)
    (hu : compute_buy_fill asks_up order_size = some fu)
    (hd : compute_buy_fill asks_down order_size = some fd)
    (hpu : fu.worst = some pu) (hpd : fd.worst = some pd) :
    (target < (pu + pd) * 1.004 →
      check_arbitrage order_size target asks_up asks_down = none) ∧
    ((pu + pd) * 1.004 ≤ target →
      check_arbitrage order_size target asks_up asks_down =
        some ⟨pu, pd, fu.vwap, fd.vwap, pu + pd, (pu + pd) * 1.004, order_size,
              order_size * 2 - (pu + pd) * 1.004 * order_size,
              (pu + pd) * 1.004 * order_size,
              (1 - (pu + pd) * 1.004) * 100⟩) ∧
    (∀ opp, check_arbitrage order_size target asks_up asks_down = some opp →
      opp.raw_cost = pu + pd ∧
      opp.total_cost = opp.raw_cost * 1.004 ∧
      opp.total_cost ≤ target ∧
      opp.expected_profit = 2 * order_size - opp.total_cost * order_size) ∧
    check_arbitrage 1 1 [⟨0.46, 1⟩] [⟨0.50, 1⟩] =
      some ⟨0.46, 0.50, 0.46, 0.50, 0.96, 0.96384, 1, 1.03616, 0.96384, 3.616⟩ ∧
    check_arbitrage 1 0.95 [⟨0.46, 1⟩] [⟨0.50, 1⟩] = none ∧
    check_arbitrage 1 1 [⟨0.30, 0.5⟩, ⟨0.60, 1⟩] [⟨0.30, 0.5⟩, ⟨0.60, 1⟩] = none := by
  have e : ((1 : ℚ) + 0.004) = 1.004 := by norm_num
  have hgen : check_arbitrage order_size target asks_up asks_down =
      if target < (pu + pd) * 1.004 then none
      else some ⟨pu, pd, fu.vwap, fd.vwap, pu + pd, (pu + pd) * 1.004, order_size,
                 order_size * 2 - (pu + pd) * 1.004 * order_size,
                 (pu + pd) * 1.004 * order_size,
                 (1 - (pu + pd) * 1.004) * 100⟩ := by
    simp only [check_arbitrage, hu, hd, hpu, hpd, e]
  refine ⟨?_, ?_, ?_, ?_, ?_, ?_⟩
  · intro h; rw [hgen, if_pos h]
  · intro h; rw [hgen, if_neg (not_lt.mpr h)]
  · intro opp hopp
    rw [hgen] at hopp
    by_cases h : target < (pu + pd) * 1.004
    · rw [if_pos h] at hopp; cases hopp
    · rw [if_neg h] at hopp
      cases hopp
      push_neg at h
      refine ⟨rfl, rfl, h, by ring⟩
  · have h1 : compute_buy_fill [(⟨0.46, 1⟩ : Level)] 1 = some ⟨0.46, some 0.46⟩ := by
      norm_num [compute_buy_fill, fillStep]
    have h2 : compute_buy_fill [(⟨0.50, 1⟩ : Level)] 1 = some ⟨0.50, some 0.50⟩ := by
      norm_num [compute_buy_fill, fillStep]
    simp only [check_arbitrage, h1, h2]
    norm_num
  · have h1 : compute_buy_fill [(⟨0.46, 1⟩ : Level)] 1 = some ⟨0.46, some 0.46⟩ := by
      norm_num [compute_buy_fill, fillStep]
    have h2 : compute_buy_fill [(⟨0.50, 1⟩ : Level)] 1 = some ⟨0.50, some 0.50⟩ := by
      norm_num [compute_buy_fill, fillStep]
    simp only [check_arbitrage, h1, h2]
    norm_num
  · have h1 : compute_buy_fill [(⟨0.30, 0.5⟩ : Level), ⟨0.60, 1⟩] 1 =
        some ⟨0.45, some 0.60⟩ := by
      norm_num [compute_buy_fill, fillStep]
    simp only [check_arbitrage, h1]
    norm_num

theorem C1_check_arbitrage_gate_witness :
    check_arbitrage 1 0.95 [⟨0.46, 1⟩] [⟨0.50, 1⟩] = none := by
  have h1 : compute_buy_fill [(⟨0.46, 1⟩ : Level)] 1 = some ⟨0.46, some 0.46⟩ := by
    norm_num [compute_buy_fill, fillStep]
  have h2 : compute_buy_fill [(⟨0.50, 1⟩ : Level)] 1 = some ⟨0.50, some 0.50⟩ := by
    norm_num [compute_buy_fill, fillStep]
  exact (C1_check_arbitrage_gate 1 0.95 _ _ _ _ 0.46 0.50 h1 h2 rfl rfl).1
    (by norm_num)

/-! ## C3 — risk gate check order -/

theorem hitsDailyCap_false (lim : RiskLimits) (s : DailyRiskState)
    (h : ∀ cap ∈ lim.max_trades_per_day, s.trades_count < cap) :
    hitsDailyCap lim s = false := by
  unfold hitsDailyCap
  cases hc : lim.max_trades_per_day with
  | none => rfl
  | some cap =>
    simpa using Nat.not_le.mpr (h cap (Option.mem_def.mpr hc))

theorem hitsDailyCap_true (lim : RiskLimits) (s : DailyRiskState) (cap : ℕ)
    (hc : lim.max_trades_per_day = some cap) (h : cap ≤ s.trades_count) :
    hitsDailyCap lim s = true := by
  unfold hitsDailyCap
  rw [hc]
  simpa using h

theorem hitsMaxPosition_false (lim : RiskLimits) (ts : ℚ)
    (h : ∀ m ∈ lim.max_position_size, ts ≤ m) :
    hitsMaxPosition lim ts = false := by
  unfold hitsMaxPosition
  cases hc : lim.max_position_size with
  | none => rfl
  | some m => simpa using not_lt.mpr (h m (Option.mem_def.mpr hc))

theorem hitsMaxPosition_true (lim : RiskLimits) (ts m : ℚ)
    (hc : lim.max_position_size = some m) (h : m < ts) :
    hitsMaxPosition lim ts = true := by
  unfold hitsMaxPosition
  rw [hc]
  simpa using h

theorem hitsDailyLoss_false (lim : RiskLimits) (s : DailyRiskState)
    (h : ∀ l ∈ lim.max_daily_loss, -|l| ≤ s.net_pnl) :
    hitsDailyLoss lim s = false := by
  unfold hitsDailyLoss
  cases hc : lim.max_daily_loss with
  | none => rfl
  | some l => simpa using not_lt.mpr (h l (Option.mem_def.mpr hc))

theorem hitsDailyLoss_true (lim : RiskLimits) (s : DailyRiskState) (l : ℚ)
    (hc : lim.max_daily_loss = some l) (h : s.net_pnl < -|l|) :
    hitsDailyLoss lim s = true := by
  unfold hitsDailyLoss
  rw [hc]
  simpa using h

/-- C3: `can_trade` runs its five checks in a fixed order, the first failing
check determining the verdict and reason; an unset optional limit imposes no
constraint; with minimum balance 100 and current balance 50 every call is
rejected (with the balance reason), whatever the trade size. -/
theorem C3_can_trade_check_order
    (lim : RiskLimits) (today : String) (ts bal : ℚ) (s : DailyRiskState)
    (hdate : s.date = today) :
    (bal < lim.min_balance_required →
      (can_trade lim today ts bal s).1 = (false, some .balanceTooLow)) ∧
    (lim.min_balance_required ≤ bal →
      bal * lim.max_balance_utilization < ts →
      (can_trade lim today ts bal s).1 = (false, some .utilizationExceeded)) ∧
    (lim.min_balance_required ≤ bal →
      ts ≤ bal * lim.max_balance_utilization →
      ∀ cap, lim.max_trades_per_day = some cap → cap ≤ s.trades_count →
      (can_trade lim today ts bal s).1 = (false, some .dailyTradeCap)) ∧
    (lim.min_balance_required ≤ bal →
      ts ≤ bal * lim.max_balance_utilization →
      (∀ cap ∈ lim.max_trades_per_day, s.trades_count < cap) →
      ∀ m, lim.max_position_size = some m → m < ts →
      (can_trade lim today ts bal s).1 = (false, some .tradeTooLarge)) ∧
    (lim.min_balance_required ≤ bal →
      ts ≤ bal * lim.max_balance_utilization →
      (∀ cap ∈ lim.max_trades_per_day, s.trades_count < cap) →
      (∀ m ∈ lim.max_position_size, ts ≤ m) →
      ∀ l, lim.max_daily_loss = some l → s.net_pnl < -|l| →
      (can_trade lim today ts bal s).1 = (false, some .dailyLossLimit)) ∧
    (lim.min_balance_required ≤ bal →
      ts ≤ bal * lim.max_balance_utilization →
      (∀ cap ∈ lim.max_trades_per_day, s.trades_count < cap) →
      (∀ m ∈ lim.max_position_size, ts ≤ m) →
      (∀ l ∈ lim.max_daily_loss, -|l| ≤ s.net_pnl) →
      (can_trade lim today ts bal s).1 = (true, none)) ∧
    (lim.min_balance_required = 100 → bal = 50 →
      (can_trade lim today ts bal s).1 = (false, some .balanceTooLow)) := by
  have hroll : rollover_if_needed today s = s := by
    simp [rollover_if_needed, hdate]
  refine ⟨?_, ?_, ?_, ?_, ?_, ?_, ?_⟩
  · intro h1
    simp only [can_trade, hroll]
    rw [if_pos h1]
  · intro h1 h2
    simp only [can_trade, hroll]
    rw [if_neg (not_lt.mpr h1), if_pos h2]
  · intro h1 h2 cap hc hcnt
    simp only [can_trade, hroll]
    rw [if_neg (not_lt.mpr h1), if_neg (not_lt.mpr h2),
      if_pos (by simpa using hitsDailyCap_true lim s cap hc hcnt)]
  · intro h1 h2 h3 m hm hlt
    simp only [can_trade, hroll]
    rw [if_neg (not_lt.mpr h1), if_neg (not_lt.mpr h2),
      if_neg (by simp [hitsDailyCap_false lim s h3]),
      if_pos (by simpa using hitsMaxPosition_true lim ts m hm hlt)]
  · intro h1 h2 h3 h4 l hl hloss
    simp only [can_trade, hroll]
    rw [if_neg (not_lt.mpr h1), if_neg (not_lt.mpr h2),
      if_neg (by simp [hitsDailyCap_false lim s h3]),
      if_neg (by simp [hitsMaxPosition_false lim ts h4]),
      if_pos (by simpa using hitsDailyLoss_true lim s l hl hloss)]
  · intro h1 h2 h3 h4 h5
    simp only [can_trade, hroll]
    rw [if_neg (not_lt.mpr h1), if_neg (not_lt.mpr h2),
      if_neg (by simp [hitsDailyCap_false lim s h3]),
      if_neg (by simp [hitsMaxPosition_false lim ts h4]),
      if_neg (by simp [hitsDailyLoss_false lim s h5])]
  · intro h1 h2
    simp only [can_trade, hroll]
    rw [if_pos (by rw [h1, h2]; norm_num)]

theorem C3_can_trade_check_order_witness :
    (can_trade ⟨none, none, none, 100, 1⟩ "2026-10-12" 7 50
      ⟨"2026-10-12", 0, 0, 0⟩).1 = (false, some .balanceTooLow) :=
  (C3_can_trade_check_order ⟨none, none, none, 100, 1⟩ "2026-10-12" 7 50
    ⟨"2026-10-12", 0, 0, 0⟩ rfl).2.2.2.2.2.2 rfl rfl

/-! ## C5 — day rollover -/

theorem rollover_date (today : String) (s : DailyRiskState) :
    (rollover_if_needed today s).date = today := by
  unfold rollover_if_needed
  split_ifs with h
  · rfl
  · exact not_ne_iff.mp h

/-- C5: every public risk-manager method first rolls the day over, so after
any call the stored date is the current UTC date; a date change replaces the
state wholesale by a fresh zeroed record; within the same day the rollover
is the identity, and rolling over twice equals rolling over once (no
double reset). -/
theorem C5_rollover_invariant
    (today : String) (s : DailyRiskState) (lim : RiskLimits)
    (ts bal profit realized : ℚ) :
    ((can_trade lim today ts bal s).2.date = today ∧
     (record_trade_result today profit s).date = today ∧
     (adjust_actual_pnl today realized s).date = today ∧
     (get_daily_stats today s).2.date = today) ∧
    ((can_trade lim today ts bal s).2 = rollover_if_needed today s ∧
     (get_daily_stats today s).2 = rollover_if_needed today s ∧
     record_trade_result today profit s =
       { rollover_if_needed today s with
         trades_count := (rollover_if_needed today s).trades_count + 1,
         net_pnl := (rollover_if_needed today s).net_pnl + profit } ∧
     adjust_actual_pnl today realized s =
       { rollover_if_needed today s with
         net_pnl := (rollover_if_needed today s).net_pnl + realized }) ∧
    (s.date ≠ today →
      rollover_if_needed today s = ⟨today, 0, 0, 0⟩) ∧
    (s.date = today → rollover_if_needed today s = s) ∧
    rollover_if_needed today (rollover_if_needed today s) =
      rollover_if_needed today s := by
  refine ⟨⟨?_, ?_, ?_, ?_⟩, ⟨rfl, rfl, rfl, rfl⟩, ?_, ?_, ?_⟩
  · exact rollover_date today s
  · show (rollover_if_needed today s).date = today
    exact rollover_date today s
  · show (rollover_if_needed today s).date = today
    exact rollover_date today s
  · exact rollover_date today s
  · intro h
    simp [rollover_if_needed, h, freshDailyRiskState]
  · intro h
    simp [rollover_if_needed, h]
  · by_cases h : s.date = today
    · simp [rollover_if_needed, h]
    · simp [rollover_if_needed, h, freshDailyRiskState]

theorem C5_rollover_invariant_witness :
    rollover_if_needed "2026-10-12" ⟨"2026-10-11", 4, -7, 3⟩ =
      ⟨"2026-10-12", 0, 0, 0⟩ :=
  (C5_rollover_invariant "2026-10-12" ⟨"2026-10-11", 4, -7, 3⟩
    ⟨none, none, none, 0, 1⟩ 1 1 1 1).2.2.1 (by decide)

/-! ## C9 — reconnect backoff -/

/-- C9: for any current backoff within the configured `[min, max]` band and
any jitter draw in `[0, 1]`, the post-failure backoff never falls below the
current value, never exceeds the configured maximum, stays inside the band,
and a successful subscribe resets the backoff to the configured minimum. -/
theorem C9_backoff_monotone_capped
    (b j : ℚ) (hb1 : min_reconnect ≤ b) (hb2 : b ≤ max_reconnect)
    (hj0 : 0 ≤ j) (hj1 : j ≤ 1) :
    b ≤ backoff_after_failure b j ∧
    backoff_after_failure b j ≤ max_reconnect ∧
    min_reconnect ≤ backoff_after_failure b j ∧
    backoff_after_subscribe = min_reconnect := by
  unfold backoff_after_failure backoff_after_subscribe
  unfold min_reconnect max_reconnect at *
  refine ⟨le_min (by nlinarith) hb2, min_le_right _ _, le_min (by nlinarith) (by norm_num), rfl⟩

theorem C9_backoff_monotone_capped_witness :
    (1 : ℚ) ≤ backoff_after_failure 1 (1/2) ∧
    backoff_after_failure 1 (1/2) ≤ 10 :=
  ⟨(C9_backoff_monotone_capped 1 (1/2) (by norm_num [min_reconnect])
      (by norm_num [max_reconnect]) (by norm_num) (by norm_num)).1,
   (C9_backoff_monotone_capped 1 (1/2) (by norm_num [min_reconnect])
      (by norm_num [max_reconnect]) (by norm_num) (by norm_num)).2.1⟩

/-! ## C6 — order polling (corrected: timeout returns the last seen record
when a poll succeeded, the synthetic zero-fill record only otherwise) -/

/-- C6 counterexample: a single successful poll reporting a non-terminal
status with 3 of 5 requested filled, followed by timeout, returns that last
seen record (filled size 3), not a synthetic record with filled size 0. -/
theorem C6_counterexample_timeout_returns_last_seen :
    wait_for_terminal_order 5 [some ⟨3, "open"⟩] none = ⟨3, "open"⟩ ∧
    (⟨3, "open"⟩ : OrderRes).filled_size ≠ 0 ∧
    (3 : ℚ) < 5 ∧ toLowerStr "open" ∉ terminalStatuses := by
  refine ⟨?_, by norm_num, by norm_num, by decide⟩
  have h1 : ¬ ((5 : ℚ) ≤ (3 : ℚ)) := by norm_num
  have h2 : ¬ (toLowerStr "open" ∈ terminalStatuses) := by decide
  simp only [wait_for_terminal_order, h1, h2, if_false, Option.getD_some]

/-- C6 amended: the poll loop returns as soon as a successful poll reports
filled size at or above the requested size or a terminal (canceled /
rejected / expired) status; a poll whose request raised leaves the loop
state untouched; and when the timeout elapses with every successful poll
non-terminal and under-filled, the result is the last successfully polled
record when one exists, and only otherwise the synthetic record with status
"timeout" and filled size 0. -/
theorem C6_wait_for_terminal_order
    (req : ℚ) (res : OrderRes) (rest polls : List (Option OrderRes))
    (last_seen : Option OrderRes) :
    (req ≤ res.filled_size →
      wait_for_terminal_order req (some res :: rest) last_seen = res) ∧
    (toLowerStr res.status ∈ terminalStatuses →
      wait_for_terminal_order req (some res :: rest) last_seen = res) ∧
    (wait_for_terminal_order req (none :: rest) last_seen =
      wait_for_terminal_order req rest last_seen) ∧
    ((∀ r ∈ polls, ∀ x ∈ r, x.filled_size < req ∧
        toLowerStr x.status ∉ terminalStatuses) →
      wait_for_terminal_order req polls last_seen =
        ((polls.filterMap id).getLast?.getD
          (last_seen.getD ⟨0, "timeout"⟩))) := by
  refine ⟨?_, ?_, rfl, ?_⟩
  · intro h
    simp only [wait_for_terminal_order, if_pos h]
  · intro h
    simp only [wait_for_terminal_order]
    split_ifs <;> rfl
  · induction polls generalizing last_seen with
    | nil => intro _; rfl
    | cons p rest ih =>
      intro h
      match p with
      | none =>
        simp only [wait_for_terminal_order, List.filterMap_cons_none]
        exact ih last_seen (fun r hr => h r (List.mem_cons_of_mem _ hr))
      | some x =>
        obtain ⟨hfill, hterm⟩ := h (some x) (List.mem_cons_self _ _) x rfl
        have hfm : List.filterMap id (some x :: rest) = x :: List.filterMap id rest := by
          simp
        simp only [wait_for_terminal_order, if_neg (not_le.mpr hfill), if_neg hterm, hfm]
        rw [ih (some x) (fun r hr => h r (List.mem_cons_of_mem _ hr))]
        cases hc : (rest.filterMap id) with
        | nil => simp [hc]
        | cons y ys =>
          rw [List.getLast?_cons_cons]
          have hne : y :: ys ≠ [] := by simp
          obtain ⟨z, hz⟩ := Option.isSome_iff_exists.mp (List.getLast?_isSome.mpr hne)
          rw [hz]
          rfl

theorem C6_wait_for_terminal_order_witness :
    wait_for_terminal_order 5 [some ⟨6, "open"⟩] none = ⟨6, "open"⟩ :=
  (C6_wait_for_terminal_order 5 ⟨6, "open"⟩ [] [] none).1 (by norm_num)

/-! ## C8 — no-opportunity cycle (corrected: `run_once` counts it as a
failure) -/

/-- C8 counterexample: `run_once` on empty books (insufficient depth, so
`check_arbitrage` yields no opportunity) increments the consecutive-failure
counter from 0 to 1 instead of leaving it unchanged. -/
theorem C8_counterexample_run_once_counts_failure :
    (run_once ⟨1, 1, 0, false⟩
        ⟨"2026-10-12", 0, "", "", ⟨0, "x"⟩, ⟨0, "x"⟩, fun _ => true⟩ 0 [] []
        ⟨0, 0, 0, [], 0, none, 0, ⟨none, none, none, 0, 1⟩,
         ⟨"2026-10-12", 0, 0, 0⟩⟩).1.1.fail_count = 1 ∧
    (⟨0, 0, 0, [], 0, none, 0, ⟨none, none, none, 0, 1⟩,
      ⟨"2026-10-12", 0, 0, 0⟩⟩ : BotState).fail_count = 0 ∧
    check_arbitrage 1 1 [] [] = none := by
  have h : check_arbitrage (1 : ℚ) (1 : ℚ) [] [] = none := by
    norm_num [check_arbitrage, compute_buy_fill, fillStep]
  exact ⟨by simp [run_once, h], rfl, h⟩

/-- C8 amended: a detection cycle that finds no opportunity leaves every
other piece of bot and risk state untouched and performs no action, but
`run_once` / `run_once_async` do increment the consecutive-failure counter
(they treat a no-opportunity cycle as an unproductive cycle, not a silent
skip). -/
theorem C8_no_opportunity_cycle
    (st : Settings) (w : World) (now : ℚ) (ub db : List Level) (s : BotState)
    (h : check_arbitrage st.order_size st.target_pair_cost ub db = none) :
    run_once st w now ub db s =
      (({ s with fail_count := s.fail_count + 1 }, []), false) ∧
    (run_once st w now ub db s).1.1.trades_executed = s.trades_executed ∧
    (run_once st w now ub db s).1.1.positions = s.positions ∧
    (run_once st w now ub db s).1.1.risk_state = s.risk_state ∧
    (run_once st w now ub db s).1.1.sim_balance = s.sim_balance ∧
    (run_once st w now ub db s).1.1.cached_balance = s.cached_balance ∧
    (run_once st w now ub db s).1.1.fail_count = s.fail_count + 1 ∧
    (run_once st w now ub db s).1.2 = [] := by
  have e : run_once st w now ub db s =
      (({ s with fail_count := s.fail_count + 1 }, []), false) := by
    simp only [run_once, h]
  rw [e]
  exact ⟨rfl, rfl, rfl, rfl, rfl, rfl, rfl, rfl⟩

theorem C8_no_opportunity_cycle_witness :
    run_once ⟨1, 1, 0, false⟩
      ⟨"2026-10-12", 0, "", "", ⟨0, "x"⟩, ⟨0, "x"⟩, fun _ => true⟩ 0 [] []
      ⟨0, 0, 0, [], 0, none, 0, ⟨none, none, none, 0, 1⟩,
       ⟨"2026-10-12", 0, 0, 0⟩⟩ =
    ((⟨1, 0, 0, [], 0, none, 0, ⟨none, none, none, 0, 1⟩,
       ⟨"2026-10-12", 0, 0, 0⟩⟩, []), false) :=
  (C8_no_opportunity_cycle ⟨1, 1, 0, false⟩
    ⟨"2026-10-12", 0, "", "", ⟨0, "x"⟩, ⟨0, "x"⟩, fun _ => true⟩ 0 [] []
    ⟨0, 0, 0, [], 0, none, 0, ⟨none, none, none, 0, 1⟩, ⟨"2026-10-12", 0, 0, 0⟩⟩
    (by norm_num [check_arbitrage, compute_buy_fill, fillStep])).1

/-! ## C4 — under-fill unwind -/

/-- C4: in real mode, whenever polling leaves either leg below the requested
size, `execute_arbitrage` attempts to cancel both order ids (whatever the
per-order cancellation outcome, which is swallowed), increments the
consecutive-failure counter, and does not increment `trades_executed`,
append a position, invalidate the cached balance, or record the trade / PnL
with the risk manager (the risk state only undergoes the `can_trade` day
rollover). -/
theorem C4_underfill_unwind
    (st : Settings) (w : World) (now : ℚ) (opp : Opportunity) (s : BotState)
    (hdry : st.dry_run = false)
    (hfail : s.fail_count < 3)
    (hcd : ¬(st.cooldown_seconds ≠ 0 ∧
      now - s.last_execution_ts < st.cooldown_seconds))
    (hbal : ¬ (s.cached_balance.getD w.wallet_balance <
      opp.total_investment * 1.1))
    (hrisk : (can_trade s.risk_limits w.today opp.total_investment
      (s.cached_balance.getD w.wallet_balance) s.risk_state).1.1 = true)
    (hup : ¬ (w.up_order_id = "")) (hdn : ¬ (w.dn_order_id = ""))
    (hunder : w.up_state.filled_size < opp.order_size ∨
      w.dn_state.filled_size < opp.order_size) :
    execute_arbitrage st w now opp s =
      ({ s with last_execution_ts := now,
                risk_state := (can_trade s.risk_limits w.today
                  opp.total_investment (s.cached_balance.getD w.wallet_balance)
                  s.risk_state).2,
                fail_count := s.fail_count + 1 },
       [BotAction.canTradeCall opp.total_investment
          (s.cached_balance.getD w.wallet_balance),
        BotAction.placeOrdersCall,
        BotAction.cancelAttempt w.up_order_id (w.cancel_ok w.up_order_id),
        BotAction.cancelAttempt w.dn_order_id (w.cancel_ok w.dn_order_id)]) ∧
    (execute_arbitrage st w now opp s).1.trades_executed = s.trades_executed ∧
    (execute_arbitrage st w now opp s).1.positions = s.positions ∧
    (execute_arbitrage st w now opp s).1.cached_balance = s.cached_balance ∧
    (execute_arbitrage st w now opp s).1.fail_count = s.fail_count + 1 ∧
    (execute_arbitrage st w now opp s).1.risk_state =
      rollover_if_needed w.today s.risk_state ∧
    (∀ p, BotAction.recordTradeCall p ∉ (execute_arbitrage st w now opp s).2) ∧
    BotAction.cancelAttempt w.up_order_id (w.cancel_ok w.up_order_id) ∈
      (execute_arbitrage st w now opp s).2 ∧
    BotAction.cancelAttempt w.dn_order_id (w.cancel_ok w.dn_order_id) ∈
      (execute_arbitrage st w now opp s).2 := by
  have hfail' : ¬ 3 ≤ s.fail_count := by omega
  have hids : ¬ (w.up_order_id = "" ∨ w.dn_order_id = "") := by
    rintro (h | h)
    · exact hup h
    · exact hdn h
  have hunder' : ¬ ((opp.order_size ≤ w.up_state.filled_size) ∧
      (opp.order_size ≤ w.dn_state.filled_size)) := by
    rcases hunder with h | h
    · exact fun hab => absurd hab.1 (not_le.mpr h)
    · exact fun hab => absurd hab.2 (not_le.mpr h)
  have hmain : execute_arbitrage st w now opp s =
      ({ s with last_execution_ts := now,
                risk_state := (can_trade s.risk_limits w.today
                  opp.total_investment (s.cached_balance.getD w.wallet_balance)
                  s.risk_state).2,
                fail_count := s.fail_count + 1 },
       [BotAction.canTradeCall opp.total_investment
          (s.cached_balance.getD w.wallet_balance),
        BotAction.placeOrdersCall,
        BotAction.cancelAttempt w.up_order_id (w.cancel_ok w.up_order_id),
        BotAction.cancelAttempt w.dn_order_id (w.cancel_ok w.dn_order_id)]) := by
    simp only [execute_arbitrage, if_neg hfail', if_neg hcd, hdry,
      Bool.false_eq_true, if_false, if_neg hbal, hrisk, if_neg hids,
      if_pos hunder', cancel_orders, List.map, List.nil_append,
      List.cons_append, List.append_nil]
    simp
  refine ⟨hmain, ?_, ?_, ?_, ?_, ?_, ?_, ?_, ?_⟩ <;> rw [hmain]
  all_goals first
    | rfl
    | simp

theorem C4_underfill_unwind_witness :
    (execute_arbitrage ⟨1, 1, 0, false⟩
      ⟨"2026-10-12", 100, "u1", "d1", ⟨1, "filled"⟩, ⟨0, "timeout"⟩,
        fun _ => true⟩ 5 ⟨0.46, 0.50, 0.46, 0.50, 0.96, 0.96384, 1, 1.03616,
        0.96384, 3.616⟩
      ⟨0, 0, 0, [], 0, none, 0, ⟨none, none, none, 0, 1⟩,
        ⟨"2026-10-12", 0, 0, 0⟩⟩).1.fail_count = 1 :=
  (C4_underfill_unwind ⟨1, 1, 0, false⟩
    ⟨"2026-10-12", 100, "u1", "d1", ⟨1, "filled"⟩, ⟨0, "timeout"⟩,
      fun _ => true⟩ 5
    ⟨0.46, 0.50, 0.46, 0.50, 0.96, 0.96384, 1, 1.03616, 0.96384, 3.616⟩
    ⟨0, 0, 0, [], 0, none, 0, ⟨none, none, none, 0, 1⟩,
      ⟨"2026-10-12", 0, 0, 0⟩⟩
    rfl (by norm_num) (by norm_num)
    (by norm_num)
    (by simp [can_trade, rollover_if_needed, hitsDailyCap, hitsMaxPosition,
      hitsDailyLoss]; norm_num)
    (by decide) (by decide)
    (Or.inr (by norm_num))).2.2.2.2.1

/-! ## C10 — dry-run bypasses the risk manager -/

/-- C10: with the dry-run flag set, `execute_arbitrage` bypasses the risk
manager on every path — the daily risk state is untouched and neither a
`can_trade` nor a `record_trade_result` call appears in the action trace.
Outside the failure-cooling and cooldown early exits, a covering simulated
balance is decremented by the total investment, the position appended and
the trade counter incremented; an insufficient simulated balance only
counts a failure (and in both branches the cooldown timestamp is set). -/
theorem C10_dry_run_bypasses_risk
    (st : Settings) (w : World) (now : ℚ) (opp : Opportunity) (s : BotState)
    (hdry : st.dry_run = true) :
    ((execute_arbitrage st w now opp s).1.risk_state = s.risk_state ∧
     (∀ ts bal, BotAction.canTradeCall ts bal ∉
        (execute_arbitrage st w now opp s).2) ∧
     (∀ p, BotAction.recordTradeCall p ∉
        (execute_arbitrage st w now opp s).2)) ∧
    (s.fail_count < 3 →
     ¬(st.cooldown_seconds ≠ 0 ∧
        now - s.last_execution_ts < st.cooldown_seconds) →
     ((opp.total_investment ≤ s.sim_balance →
        execute_arbitrage st w now opp s =
          ({ s with last_execution_ts := now,
                    sim_balance := s.sim_balance - opp.total_investment,
                    positions := s.positions ++ [opp],
                    trades_executed := s.trades_executed + 1,
                    total_invested :=
                      s.total_invested + opp.total_investment }, [])) ∧
      (s.sim_balance < opp.total_investment →
        execute_arbitrage st w now opp s =
          ({ s with last_execution_ts := now,
                    fail_count := s.fail_count + 1 }, [])))) := by
  constructor
  · refine ⟨?_, ?_, ?_⟩ <;>
      simp only [execute_arbitrage, hdry, if_true] <;>
      split_ifs <;> simp
  · intro hfail hcd
    have hfail' : ¬ 3 ≤ s.fail_count := by omega
    constructor
    · intro hbal
      simp only [execute_arbitrage, if_neg hfail', if_neg hcd, hdry, if_true]
      rw [if_neg (not_lt.mpr hbal)]
    · intro hbal
      simp only [execute_arbitrage, if_neg hfail', if_neg hcd, hdry, if_true]
      rw [if_pos hbal]

theorem C10_dry_run_bypasses_risk_witness :
    execute_arbitrage ⟨1, 1, 0, true⟩
      ⟨"2026-10-12", 0, "", "", ⟨0, "x"⟩, ⟨0, "x"⟩, fun _ => true⟩ 5
      ⟨0.46, 0.50, 0.46, 0.50, 0.96, 0.96384, 1, 1.03616, 0.96384, 3.616⟩
      ⟨0, 0, 0, [], 0, none, 100, ⟨none, none, none, 0, 1⟩,
        ⟨"2026-10-12", 0, 0, 0⟩⟩ =
    (⟨0, 5, 1,
      [⟨0.46, 0.50, 0.46, 0.50, 0.96, 0.96384, 1, 1.03616, 0.96384, 3.616⟩],
      0 + 0.96384, none, 100 - 0.96384, ⟨none, none, none, 0, 1⟩,
      ⟨"2026-10-12", 0, 0, 0⟩⟩, []) :=
  ((C10_dry_run_bypasses_risk ⟨1, 1, 0, true⟩
      ⟨"2026-10-12", 0, "", "", ⟨0, "x"⟩, ⟨0, "x"⟩, fun _ => true⟩ 5
      ⟨0.46, 0.50, 0.46, 0.50, 0.96, 0.96384, 1, 1.03616, 0.96384, 3.616⟩
      ⟨0, 0, 0, [], 0, none, 100, ⟨none, none, none, 0, 1⟩,
        ⟨"2026-10-12", 0, 0, 0⟩⟩ rfl).2
    (by norm_num) (by simp)).1 (by norm_num)

/-! ## C7 — VWAP monotonicity (corrected: the walk takes the ladder in the
order given, so monotonicity fails for unsorted ladders and holds for
price-sorted ones) -/

/-- C7 counterexample: against the ladder [(0.50,5),(0.40,10)], walked in
the order given (prices descending), size 5 fills at VWAP 0.50 while the
larger size 10 fills at the strictly lower VWAP 0.45. -/
theorem C7_counterexample_vwap_not_monotone :
    compute_buy_fill [⟨0.50, 5⟩, ⟨0.40, 10⟩] 5 = some ⟨0.50, some 0.50⟩ ∧
    compute_buy_fill [⟨0.50, 5⟩, ⟨0.40, 10⟩] 10 = some ⟨0.45, some 0.40⟩ ∧
    (5 : ℚ) ≤ 10 ∧ (0.45 : ℚ) < 0.50 := by
  refine ⟨?_, ?_, by norm_num, by norm_num⟩ <;>
    norm_num [compute_buy_fill, fillStep]

/-- Every unit the walk takes costs at least `p` when every ladder price is
at least `p`. -/
theorem fillCostAux_lower (p : ℚ) (asks : List Level)
    (h : ∀ lvl ∈ asks, p ≤ lvl.px ∧ 0 ≤ lvl.sz) :
    ∀ s : ℚ, 0 ≤ s → fillFilledAux asks s * p ≤ fillCostAux asks s := by
  induction asks with
  | nil => intro s _; simp [fillFilledAux, fillCostAux]
  | cons lvl rest ih =>
    intro s hs
    obtain ⟨hp, hz⟩ := h lvl (List.mem_cons_self _ _)
    have hrest := fun l hl => h l (List.mem_cons_of_mem _ hl)
    simp only [fillFilledAux, fillCostAux]
    split_ifs with hcase
    · exact mul_le_mul_of_nonneg_left hp hs
    · push_neg at hcase
      have h1 := ih hrest (s - lvl.sz) (by linarith)
      have h2 : lvl.sz * p ≤ lvl.sz * lvl.px := mul_le_mul_of_nonneg_left hp hz
      nlinarith [h1, h2]

/-- Walking to a larger target `b` costs at least the cost of the smaller
target `a` plus `(b - a)` units at the ladder price floor `p`, provided the
walk actually fills `b`. -/
theorem fillCostAux_diff (p : ℚ) (asks : List Level)
    (h : ∀ lvl ∈ asks, p ≤ lvl.px ∧ 0 ≤ lvl.sz) :
    ∀ a b : ℚ, 0 ≤ a → a ≤ b → fillFilledAux asks b = b →
    fillCostAux asks a + (b - a) * p ≤ fillCostAux asks b := by
  induction asks with
  | nil =>
    intro a b ha hab hsucc
    simp only [fillFilledAux] at hsucc
    have hb : b = 0 := hsucc.symm
    have ha0 : a = 0 := le_antisymm (hb ▸ hab) ha
    simp [fillCostAux, hb, ha0]
  | cons lvl rest ih =>
    intro a b ha hab hsucc
    obtain ⟨hp, hz⟩ := h lvl (List.mem_cons_self _ _)
    have hrest := fun l hl => h l (List.mem_cons_of_mem _ hl)
    by_cases hb : b ≤ lvl.sz
    · have ha2 : a ≤ lvl.sz := le_trans hab hb
      simp only [fillCostAux, if_pos hb, if_pos ha2]
      nlinarith [mul_le_mul_of_nonneg_left hp (by linarith : (0:ℚ) ≤ b - a)]
    · push_neg at hb
      have hF : fillFilledAux rest (b - lvl.sz) = b - lvl.sz := by
        have := hsucc
        simp only [fillFilledAux, if_neg (not_le.mpr hb)] at this
        linarith
      by_cases ha2 : a ≤ lvl.sz
      · simp only [fillCostAux, if_pos ha2, if_neg (not_le.mpr hb)]
        have hL := fillCostAux_lower p rest hrest (b - lvl.sz) (by linarith)
        rw [hF] at hL
        nlinarith [hL, mul_le_mul_of_nonneg_left hp
          (by linarith : (0:ℚ) ≤ lvl.sz - a)]
      · push_neg at ha2
        simp only [fillCostAux, if_neg (not_le.mpr ha2), if_neg (not_le.mpr hb)]
        have hIH := ih hrest (a - lvl.sz) (b - lvl.sz) (by linarith)
          (by linarith) hF
        nlinarith [hIH]

/-- The cross-multiplied VWAP comparison for a price-sorted ladder with
non-negative sizes: if the walk fills both targets in full, the larger
target never yields a smaller VWAP. -/
theorem fillCostAux_mul_mono (asks : List Level) :
    ∀ s1 s2 : ℚ,
    asks.Pairwise (fun x y => x.px ≤ y.px) →
    (∀ lvl ∈ asks, 0 ≤ lvl.sz) →
    0 < s1 → s1 ≤ s2 →
    fillFilledAux asks s1 = s1 → fillFilledAux asks s2 = s2 →
    fillCostAux asks s1 * s2 ≤ fillCostAux asks s2 * s1 := by
  induction asks with
  | nil =>
    intro s1 s2 _ _ h1 _ hsucc1 _
    simp only [fillFilledAux] at hsucc1
    linarith [hsucc1.symm]
  | cons lvl rest ih =>
    intro s1 s2 hsort hsz h1 h12 hsucc1 hsucc2
    have hsort' := List.pairwise_cons.mp hsort
    have hszr : ∀ l ∈ rest, 0 ≤ l.sz :=
      fun l hl => hsz l (List.mem_cons_of_mem _ hl)
    have hrq : ∀ l ∈ rest, lvl.px ≤ l.px ∧ 0 ≤ l.sz :=
      fun l hl => ⟨hsort'.1 l hl, hszr l hl⟩
    have hz : 0 ≤ lvl.sz := hsz lvl (List.mem_cons_self _ _)
    by_cases hb1 : s1 ≤ lvl.sz
    · by_cases hb2 : s2 ≤ lvl.sz
      · simp only [fillCostAux, if_pos hb1, if_pos hb2]
        exact le_of_eq (by ring)
      · push_neg at hb2
        simp only [fillCostAux, if_pos hb1, if_neg (not_le.mpr hb2)]
        have hF2 : fillFilledAux rest (s2 - lvl.sz) = s2 - lvl.sz := by
          have := hsucc2
          simp only [fillFilledAux, if_neg (not_le.mpr hb2)] at this
          linarith
        have hL := fillCostAux_lower lvl.px rest hrq (s2 - lvl.sz) (by linarith)
        rw [hF2] at hL
        nlinarith [mul_le_mul_of_nonneg_left hL h1.le]
    · push_neg at hb1
      have hb2 : ¬ (s2 ≤ lvl.sz) := not_le.mpr (by linarith)
      simp only [fillCostAux, if_neg (not_le.mpr hb1), if_neg hb2]
      have hF1 : fillFilledAux rest (s1 - lvl.sz) = s1 - lvl.sz := by
        have := hsucc1
        simp only [fillFilledAux, if_neg (not_le.mpr hb1)] at this
        linarith
      have hF2 : fillFilledAux rest (s2 - lvl.sz) = s2 - lvl.sz := by
        have := hsucc2
        simp only [fillFilledAux, if_neg hb2] at this
        linarith
      have hIH := ih (s1 - lvl.sz) (s2 - lvl.sz) hsort'.2 hszr (by linarith)
        (by linarith) hF1 hF2
      have hD := fillCostAux_diff lvl.px rest hrq (s1 - lvl.sz) (s2 - lvl.sz)
        (by linarith) (by linarith) hF2
      have hzD := mul_le_mul_of_nonneg_left hD hz
      nlinarith [hIH, hzD]

/-- C7 amended: the fill estimate is monotonic in the requested size for
every ask ladder whose prices are in non-decreasing order (best ask first,
the shape real ask ladders have) and whose level sizes are non-negative:
for `0 < s1 ≤ s2`, when both estimates succeed the VWAP for `s2` is never
below the VWAP for `s1`.  (As stated over arbitrary ladders the claim is
false: the walk takes levels in the order given, see the counterexample.) -/
theorem C7_vwap_monotone_sorted
    (asks : List Level) (s1 s2 : ℚ) (e1 e2 : FillEst)
    (hsort : asks.Pairwise (fun x y => x.px ≤ y.px))
    (hsz : ∀ lvl ∈ asks, 0 ≤ lvl.sz)
    (h1 : 0 < s1) (h12 : s1 ≤ s2)
    (he1 : compute_buy_fill asks s1 = some e1)
    (he2 : compute_buy_fill asks s2 = some e2) :
    e1.vwap ≤ e2.vwap := by
  have h2 : 0 < s2 := lt_of_lt_of_le h1 h12
  have hsucc1 := fillFilledAux_success asks s1 h1 e1 he1
  have hsucc2 := fillFilledAux_success asks s2 h2 e2 he2
  have hv1 : e1.vwap = fillCostAux asks s1 / s1 := by
    rw [compute_buy_fill_eq asks s1 h1,
      if_neg (by rw [hsucc1]; exact lt_irrefl s1)] at he1
    cases he1
    rfl
  have hv2 : e2.vwap = fillCostAux asks s2 / s2 := by
    rw [compute_buy_fill_eq asks s2 h2,
      if_neg (by rw [hsucc2]; exact lt_irrefl s2)] at he2
    cases he2
    rfl
  rw [hv1, hv2, div_le_div_iff₀ h1 h2]
  exact fillCostAux_mul_mono asks s1 s2 hsort hsz h1 h12 hsucc1 hsucc2

theorem C7_vwap_monotone_sorted_witness :
    (⟨0.40, some 0.40⟩ : FillEst).vwap ≤ (⟨0.4075, some 0.42⟩ : FillEst).vwap :=
  C7_vwap_monotone_sorted [⟨0.40, 5⟩, ⟨0.42, 10⟩] 5 8
    ⟨0.40, some 0.40⟩ ⟨0.4075, some 0.42⟩
    (by simp [List.pairwise_cons]; norm_num)
    (by intro l hl; fin_cases hl <;> norm_num)
    (by norm_num) (by norm_num)
    (by norm_num [compute_buy_fill, fillStep])
    (by norm_num [compute_buy_fill, fillStep])
